import Mathlib

/-!
Verification development for the TEAM-41 chat application.

The repository couples a React chat UI (frontend/) with an LLM-routed
tool-execution backend (documented in backend/README.md and the
architecture notes). This file shallow-embeds the parts of the code the
claims refer to:

* `frontend/services/mockDatabase.ts` — the local user database
  (`db.createUser`, `db.emailExists`).
* `frontend/services/geminiService.ts` — the bounded history window
  (`history.slice(-10)`) sent with each LLM call.
* `frontend/services/backendService.ts` — the `UserRequest` /
  `AgentResponse` wire types and the word-chunked streaming loop of
  `streamChatResponse`.
* `frontend/App.tsx` — `handleSendMessage`'s error handling and
  `handleStopGeneration`.
* The backend core (action mapper and policy table, pending-action
  store, orchestrator) is not present as source in the repository —
  only its documentation is — so those components are modelled from the
  specification, and each such definition is marked
  `Modelled from the spec:` in its doc comment.

JavaScript strings are modelled as `String` (a wrapper around
`List Char`), and where character-level reasoning is needed
(`split(' ')` / chunk concatenation) directly as `List Char`.
Machine time is modelled as `Nat` seconds.
-/

/-! ## Mock user database (`frontend/services/mockDatabase.ts`) -/

/-- A stored user, from the `User` interface of `mockDatabase.ts`:
`{ name, email, password?, pin }`. -/
structure MockUser where
  name : String
  email : String
  password : Option String
  pin : String
deriving DecidableEq, Repr

/-- Lower-casing of an email, modelling JavaScript's
`email.toLowerCase()` as used throughout `mockDatabase.ts`:
character-wise lower-casing of the string's characters. -/
def emailLower (s : String) : String :=
  ⟨s.data.map Char.toLower⟩

/-- The function `db.emailExists`: `users.some(u => u.email.toLowerCase() ===
email.toLowerCase())`, with the user list passed explicitly instead of
read from `localStorage`. -/
def emailExists (users : List MockUser) (email : String) : Bool :=
  users.any fun u => emailLower u.email == emailLower email

/-- The function `db.createUser`: if some stored user has the same lower-cased email
the call returns `success: false` and stores nothing; otherwise it
pushes the user and returns `success: true`. The `localStorage`
read/write pair is modelled as explicit state passing: the result is
the new user list together with the `success` flag. -/
def createUser (users : List MockUser) (user : MockUser) :
    List MockUser × Bool :=
  if users.any fun u => emailLower u.email == emailLower user.email then
    (users, false)
  else
    (users ++ [user], true)

/-! ## Bounded history window (`frontend/services/geminiService.ts`) -/

/-- One chat turn, from the `Message` shape used by the services:
a role (`'user'` / `'model'`) and a content string. -/
structure Msg where
  role : String
  content : String
deriving DecidableEq, Repr

/-- One entry of the Gemini chat history:
`{ role: msg.role, parts: [{ text: msg.content }] }`. -/
structure GeminiTurn where
  role : String
  parts : List String
deriving DecidableEq, Repr

/-- The per-message conversion inside
`history.slice(-10).map(msg => ({role: msg.role, parts: [{text: msg.content}]}))`. -/
def toGeminiTurn (m : Msg) : GeminiTurn :=
  ⟨m.role, [m.content]⟩

/-- The window `history.slice(-10)` of `geminiService.streamChatResponse`:
JavaScript's `slice(-10)` keeps the elements from index
`max(length - 10, 0)` on, which is exactly `List.drop` with truncated
natural subtraction. -/
def recentHistory (history : List Msg) : List Msg :=
  history.drop (history.length - 10)

/-- The chat history actually handed to the LLM call:
`history.slice(-10)` mapped into Gemini format. -/
def sentHistory (history : List Msg) : List GeminiTurn :=
  (recentHistory history).map toGeminiTurn

/-! ## Wire types (`frontend/services/backendService.ts`) -/

/-- The `UserRequest` interface: field names paired with whether the
field is required (`true`) or optional (`false`, marked `?` in the
TypeScript source). -/
def userRequestFields : List (String × Bool) :=
  [("user_id", true), ("message", true),
   ("session_id", false), ("metadata", false)]

/-- The `AgentResponse` interface: field names paired with whether the
field is required. The reply text lives in the field named
`response`. -/
def agentResponseFields : List (String × Bool) :=
  [("response", true), ("session_id", true), ("action_required", true),
   ("suggested_actions", false), ("metadata", false)]

/-- The response field names as the specification document words them
(`reply_text`, `session_id`, `action_required`, `suggested_actions?`);
kept separately so it can be compared with `agentResponseFields`,
which is taken from the TypeScript source. -/
def specResponseFields : List (String × Bool) :=
  [("reply_text", true), ("session_id", true), ("action_required", true),
   ("suggested_actions", false)]

/-! ## Streaming chunk loop (`frontend/services/backendService.ts`)

`streamChatResponse` receives the full `AgentResponse`, then simulates
streaming:

```js
const words = data.response.split(' ');
let currentChunk = '';
for (let i = 0; i < words.length; i++) {
  if (abortSignal?.aborted) { break; }
  currentChunk += (i > 0 ? ' ' : '') + words[i];
  if (i % 4 === 3 || i === words.length - 1) {
    onChunk(currentChunk); currentChunk = '';
  }
}
return data;
```

The reply text is modelled as `List Char`; `split(' ')` is
`List.splitOn ' '` (both produce `["a", "", "b"]` on `"a  b"` and
`[""]` on `""`). The loop is modelled by recursion on the word list
carrying the index `i`; `i === words.length - 1` holds exactly when
the remaining word list is empty. The abort signal is a predicate on
the loop index; `fun i => false` is the run where it never fires. -/

/-- The chunking loop body: from the words not yet consumed, the
current index, and the accumulated `currentChunk`, produce the list of
strings passed to `onChunk`. `abort i = true` models
`abortSignal.aborted` being observed at iteration `i` (the `break`). -/
def chunkRun (abort : Nat → Bool) :
    List (List Char) → Nat → List Char → List (List Char)
  | [], _, _ => []
  | w :: ws, i, cur =>
    if abort i then []
    else
      let cur' := cur ++ (if 0 < i then [' '] else []) ++ w
      if i % 4 == 3 || ws.isEmpty then cur' :: chunkRun abort ws (i + 1) []
      else chunkRun abort ws (i + 1) cur'

/-- All chunks emitted for reply text `resp` under abort schedule
`abort`: the loop run over `resp.split(' ')` from index 0 with an
empty `currentChunk`. -/
def emittedChunks (abort : Nat → Bool) (resp : List Char) :
    List (List Char) :=
  chunkRun abort (resp.splitOn ' ') 0 []

/-- The client side of one `streamChatResponse` call after the fetch
resolved with reply text `resp`: the emitted chunks and the returned
value. The source returns `data` unchanged after the loop, whether or
not the loop was left early by the abort check. -/
def clientStream (abort : Nat → Bool) (resp : List Char) :
    List (List Char) × List Char :=
  (emittedChunks abort resp, resp)

/-- Modelled from the spec: one whole chat execution, for the
cancellation contract of §5. The server's handling of the request —
classify, dispatch the tool action, build the reply — is missing from
the repository source, and per §5 ("once `Tool Dispatcher.execute`
begins, it runs to completion or timeout regardless of client-side
cancellation") it is modelled as a function `server` of the request
alone: the client-side abort schedule is not an input to it. The
client then runs the streaming loop of `backendService.ts` on the
returned reply text. The result is the server-side effect, the chunks
displayed, and the value the client call returns. -/
def chatExecution {E R : Type} (server : R → E × List Char)
    (req : R) (abort : Nat → Bool) :
    E × (List (List Char) × List Char) :=
  let (e, resp) := server req
  (e, clientStream abort resp)

/-! ## Client error handling (`frontend/App.tsx`) -/

/-- The outcome `handleSendMessage` observes from the awaited chat
service call: either the stream completed, or an error value with a
`name` and a `message` was thrown. -/
inductive SendOutcome where
  | ok : SendOutcome
  | err (name : String) (message : String) : SendOutcome
deriving DecidableEq, Repr

/-- The fallback `error.message || "Something went wrong"` — JavaScript `||` falls
back on the empty string, which is falsy. -/
def errText (message : String) : String :=
  if message = "" then "Something went wrong" else message

/-- The `try`/`catch` tail of `handleSendMessage` in `App.tsx`, acting
on the assistant message's `(content, isError)` pair. On an
`AbortError` the catch only logs; on any other error it appends
`"\n[Error: " + (error.message || "Something went wrong") + "]"` to
the streamed content and marks the message as an error. The function
is total: no outcome escapes the catch. -/
def handleSendCatch (content : String) (o : SendOutcome) :
    String × Bool :=
  match o with
  | .ok => (content, false)
  | .err name message =>
    if name = "AbortError" then (content, false)
    else (content ++ "\n[Error: " ++ errText message ++ "]", true)

/-! ## Backend core, modelled from the spec

The backend source (`backend/utils/llm_router.py`,
`backend/utils/state_manager.py`, `backend/main.py`, …) is not in the
repository — only its README and architecture notes are. The
components below are therefore modelled from the specification (§3,
§4.2, §4.3, §4.5, §7) and the operation names documented in the
architecture notes. -/

/-- Modelled from the spec: the `tool_type` enumeration of §3,
`{gmail, calendar, docs, slack, sms}`. -/
inductive ToolType where
  | gmail | calendar | docs | slack | sms
deriving DecidableEq, Repr

/-- Modelled from the spec: a `ToolAction` (§3) — tool, operation
name, normalized parameters, and the confirmation flag derived from
the policy table. -/
structure ToolAction where
  tool_type : ToolType
  operation : String
  parameters : List (String × String)
  requires_confirmation : Bool
deriving DecidableEq, Repr

/-- The verb of an operation name: the characters before the first
underscore (`send_email ↦ send`, `list_messages ↦ list`). -/
def opVerb (operation : String) : List Char :=
  operation.data.takeWhile (· ≠ '_')

/-- The state-mutating verbs of §3: send, create, update, delete. -/
def isMutatingVerb (v : List Char) : Bool :=
  v = "send".data || v = "create".data || v = "update".data ||
    v = "delete".data

/-- The read-only verbs of §3: list, search, get. -/
def isReadOnlyVerb (v : List Char) : Bool :=
  v = "list".data || v = "search".data || v = "get".data

/-- Modelled from the spec: the static confirmation-policy table keyed
on `(tool_type, operation)` (§3, §4.2), the single source of truth for
`requires_confirmation`. The `(tool, operation)` pairs are the ones
the repository's architecture notes document (gmail
list/get/search/send, calendar list/get/create/update/delete, docs
create, slack send, sms send); the flag is true exactly on the
state-mutating operations. -/
def policyTable : List (ToolType × String × Bool) :=
  [(.gmail, "list_messages", false),
   (.gmail, "get_message", false),
   (.gmail, "search_messages", false),
   (.gmail, "send_email", true),
   (.calendar, "list_events", false),
   (.calendar, "get_event", false),
   (.calendar, "create_event", true),
   (.calendar, "update_event", true),
   (.calendar, "delete_event", true),
   (.docs, "create_document", true),
   (.slack, "send_message", true),
   (.sms, "send_sms", true)]

/-- Modelled from the spec: the policy lookup of the Action Mapper —
the `requires_confirmation` flag recorded for `(tool, operation)` in
the table, if the pair is known. -/
def lookupPolicy (tool : ToolType) (operation : String) : Option Bool :=
  (policyTable.find? fun e =>
    e.1 = tool ∧ e.2.1 = operation).map (·.2.2)

/-- Modelled from the spec: `Action Mapper.map` (§4.2) restricted to
what the claims need — a pure function that, for a classified
`(tool, operation)` pair and its parameters, builds the `ToolAction`
with `requires_confirmation` read off the policy table, and returns
`none` for a pair the table does not know. -/
def mapAction (tool : ToolType) (operation : String)
    (parameters : List (String × String)) : Option ToolAction :=
  (lookupPolicy tool operation).map fun b =>
    ⟨tool, operation, parameters, b⟩

/-! ## Pending-Action Store, modelled from the spec (§3, §4.3) -/

/-- Modelled from the spec: the `PendingAction` status state machine
of §3. -/
inductive PStatus where
  | awaiting_confirmation | confirmed | cancelled | expired
deriving DecidableEq, Repr

/-- Modelled from the spec: a `PendingAction` (§3) — a `ToolAction`
wrapped with session context, creation time and expiry time. -/
structure PendingAction where
  session_id : String
  user_id : String
  action : ToolAction
  status : PStatus
  created_at : Nat
  expires_at : Nat
deriving DecidableEq, Repr

/-- Modelled from the spec: the TTL of a pending action. The
architecture notes document the Redis entry `session:{session_id}`
with `TTL: 3600 seconds (1 hour)`. -/
def pendingTTL : Nat := 3600

/-- Modelled from the spec: the store state — the backing key-value
store, keyed by `session_id`. -/
abbrev Store : Type := List (String × PendingAction)

/-- The empty store. -/
def Store.empty : Store := []

/-- All entries of the store except those keyed by `sid`. -/
def removeKey (s : Store) (sid : String) : Store :=
  s.filter fun e => e.1 ≠ sid

/-- The entry stored for `sid`, with no expiry check. -/
def findEntry (s : Store) (sid : String) : Option PendingAction :=
  (s.find? fun e => e.1 = sid).map (·.2)

/-- Modelled from the spec: `put(session_id, pending)` (§4.3) —
overwrites any existing entry for that session and sets
`status = awaiting_confirmation`, `created_at = now`,
`expires_at = now + TTL`. -/
def put (s : Store) (sid : String) (p : PendingAction) (now : Nat) :
    Store :=
  (sid, { p with session_id := sid,
                 status := .awaiting_confirmation,
                 created_at := now,
                 expires_at := now + pendingTTL }) :: removeKey s sid

/-- Modelled from the spec: `get(session_id)` (§4.3) — `none` if
absent or if `now > expires_at` (lazy expiry). -/
def Store.get (s : Store) (sid : String) (now : Nat) :
    Option PendingAction :=
  match findEntry s sid with
  | none => none
  | some p => if now > p.expires_at then none else some p

/-- Modelled from the spec: the errors `resolve` can fail with
(§4.3). -/
inductive ResolutionError where
  | notFound | expired
deriving DecidableEq, Repr

/-- Modelled from the spec: `resolve(session_id, confirmed)` (§4.3) —
`notFound` if no entry exists, `expired` if past TTL, otherwise the
status transitions to `confirmed` or `cancelled`, the entry is removed
from the store immediately, and the resolved entry is returned
together with the new store state. The atomicity required of
`resolve` under concurrency means any two racing calls behave as some
sequential order of the two, which is how races are analysed here. -/
def resolve (s : Store) (sid : String) (confirmed : Bool) (now : Nat) :
    Except ResolutionError (PendingAction × Store) :=
  match findEntry s sid with
  | none => .error .notFound
  | some p =>
    if now > p.expires_at then .error .expired
    else .ok ({ p with status := if confirmed then .confirmed
                                 else .cancelled },
              removeKey s sid)

/-- Modelled from the spec: a background sweep (§4.3) — removes every
entry past its TTL. The spec requires no sweep but allows one; it
must be idempotent with the lazy checks. -/
def sweep (s : Store) (now : Nat) : Store :=
  s.filter fun e => ¬ now > e.2.expires_at

/-- Modelled from the spec: `handle_confirmation(session_id,
confirmed)` (§4.5) — resolve the pending action; on `NotFound` or
`Expired` reply that nothing is pending; on a cancellation acknowledge
it; on a confirmation dispatch the action. The result records the
reply, the new store state, and how many times the Tool Dispatcher
was invoked during the call. -/
def handleConfirmation (s : Store) (sid : String) (confirmed : Bool)
    (now : Nat) : String × Store × Nat :=
  match resolve s sid confirmed now with
  | .error _ => ("There is nothing pending to confirm.", s, 0)
  | .ok (p, s') =>
    if p.status = .confirmed then
      ("Action executed.", s', 1)
    else
      ("Action cancelled.", s', 0)

/-- A `put` request: session id, payload, and the time of the call. -/
structure PutOp where
  sid : String
  pending : PendingAction
  now : Nat

/-- Apply a sequence of `put` calls to a store, oldest first. -/
def applyPuts (s : Store) : List PutOp → Store
  | [] => s
  | op :: ops => applyPuts (put s op.sid op.pending op.now) ops

/-- The entry the most recent `put` for `sid` in the sequence would
store (later calls take precedence), if any. -/
def lastPutFor (ops : List PutOp) (sid : String) :
    Option PendingAction :=
  match ops with
  | [] => none
  | op :: rest =>
    match lastPutFor rest sid with
    | some p => some p
    | none =>
      if op.sid = sid then
        some { op.pending with
                 session_id := sid,
                 status := .awaiting_confirmation,
                 created_at := op.now,
                 expires_at := op.now + pendingTTL }
      else none

/-! ## Orchestrator error taxonomy, modelled from the spec (§7) -/

/-- Modelled from the spec: the error taxonomy of §7. -/
inductive ErrorKind where
  | classification | incompleteAction | unknownTool
  | toolExecutionFailure | pendingNotFound | pendingExpired | timeout
deriving DecidableEq, Repr

/-- Modelled from the spec: the orchestrator boundary's conversion of
each error kind into a user-facing reply (§7's propagation policy).
The function is total — every kind is caught and converted; none is
re-thrown. -/
def orchestratorReply : ErrorKind → String
  | .classification =>
    "Sorry, I could not understand that request. Could you rephrase it?"
  | .incompleteAction =>
    "I need a bit more information to do that. What is missing?"
  | .unknownTool =>
    "Sorry, something went wrong on our side handling that action."
  | .toolExecutionFailure =>
    "The action could not be completed. Please try again later."
  | .pendingNotFound =>
    "There is nothing pending to confirm."
  | .pendingExpired =>
    "That request has expired, so there is nothing left to confirm."
  | .timeout =>
    "The action is taking longer than expected; its outcome is uncertain."

/-! ## Helper: flattened form of the chunk loop -/

/-- The characters the loop appends to `currentChunk` from index `i`
on, ignoring chunk boundaries: each word prefixed by a space except at
index 0. Used to relate the chunk loop to the original reply text. -/
def sepJoin : List (List Char) → Nat → List Char
  | [], _ => []
  | w :: ws, i => (if 0 < i then [' '] else []) ++ w ++ sepJoin ws (i + 1)

/-- The reply text contains no two consecutive spaces (the hypothesis
under which the claim about chunk concatenation is stated). -/
def noDoubleSpace (resp : List Char) : Prop :=
  ¬ [' ', ' '] <:+: resp

instance (resp : List Char) : Decidable (noDoubleSpace resp) :=
  inferInstanceAs (Decidable ¬ _)

/-! ## Theorems -/

/-- C10: `db.createUser` is atomic and enforces case-insensitive email
uniqueness: it returns `success: false` and leaves the stored user
list completely unchanged exactly when some existing user's email
equals the new user's email ignoring case; otherwise it appends
exactly the given user and returns `success: true`. -/
theorem createUser_correct (users : List MockUser) (u : MockUser) :
    ((∃ v ∈ users, emailLower v.email = emailLower u.email) →
      createUser users u = (users, false)) ∧
    ((∀ v ∈ users, emailLower v.email ≠ emailLower u.email) →
      createUser users u = (users ++ [u], true)) ∧
    ((createUser users u).2 = false ↔
      ∃ v ∈ users, emailLower v.email = emailLower u.email) := by
  have key : (users.any fun v => emailLower v.email == emailLower u.email)
      = true ↔ ∃ v ∈ users, emailLower v.email = emailLower u.email := by
    simp
  refine ⟨fun h => ?_, fun h => ?_, ?_⟩
  · simp [createUser, key.2 h]
  · have hne : ¬ (users.any fun v =>
        emailLower v.email == emailLower u.email) = true := fun hc => by
      obtain ⟨v, hv, he⟩ := key.1 hc
      exact h v hv he
    simp [createUser, hne]
  · by_cases hc : (users.any fun v =>
        emailLower v.email == emailLower u.email) = true
    · simp [createUser, hc, key.1 hc]
    · simp [createUser, hc]
      intro v hv he
      exact hc (key.2 ⟨v, hv, he⟩)

/-- Witness for `createUser_correct`: a duplicate differing only in
case is rejected with the list unchanged, and a fresh email is
appended. -/
theorem createUser_correct_witness :
    createUser [⟨"A", "User@Askk.ai", some "p", "1"⟩]
        ⟨"B", "user@askk.AI", none, "2"⟩ =
      ([⟨"A", "User@Askk.ai", some "p", "1"⟩], false) ∧
    createUser [⟨"A", "User@Askk.ai", some "p", "1"⟩]
        ⟨"B", "b@askk.ai", none, "2"⟩ =
      ([⟨"A", "User@Askk.ai", some "p", "1"⟩,
        ⟨"B", "b@askk.ai", none, "2"⟩], true) :=
  ⟨(createUser_correct _ _).1 (by decide),
   (createUser_correct _ _).2.1 (by decide)⟩

/-- C6: the context sent to the LLM call in
`geminiService.streamChatResponse` is the most recent 10 turns in
their original order: a history of at most 10 turns is sent whole,
and a longer one loses exactly its oldest turns. -/
theorem recentHistory_window (h : List Msg) :
    (h.length ≤ 10 → sentHistory h = h.map toGeminiTurn) ∧
    (10 < h.length →
      (sentHistory h).length = 10 ∧
      (h.take (h.length - 10)).map toGeminiTurn ++ sentHistory h =
        h.map toGeminiTurn ∧
      sentHistory h = (h.drop (h.length - 10)).map toGeminiTurn) := by
  constructor
  · intro hle
    have h0 : h.length - 10 = 0 := Nat.sub_eq_zero_of_le hle
    simp [sentHistory, recentHistory, h0]
  · intro hgt
    refine ⟨?_, ?_, rfl⟩
    · simp only [sentHistory, recentHistory, List.length_map,
        List.length_drop]
      omega
    · rw [sentHistory, recentHistory, ← List.map_append,
        List.take_append_drop]

/-- Witness for `recentHistory_window`: a 3-turn history is sent
whole; a 12-turn history is cut to 10 turns. -/
theorem recentHistory_window_witness :
    sentHistory (List.replicate 3 ⟨"user", "a"⟩) =
      (List.replicate 3 (⟨"user", "a"⟩ : Msg)).map toGeminiTurn ∧
    (sentHistory (List.replicate 12 ⟨"user", "a"⟩)).length = 10 :=
  ⟨(recentHistory_window _).1 (by decide),
   ((recentHistory_window _).2 (by decide)).1⟩

/-- C5 counterexample: the spec names the reply-text field
`reply_text`, but the `AgentResponse` interface of
`backendService.ts` has no field of that name — the reply text lives
in the field named `response` — so the response field names are not
the set the claim states. -/
theorem agentResponse_no_reply_text :
    "reply_text" ∈ specResponseFields.map (·.1) ∧
    "reply_text" ∉ agentResponseFields.map (·.1) ∧
    "response" ∈ agentResponseFields.map (·.1) ∧
    agentResponseFields.map (·.1) ≠ specResponseFields.map (·.1) := by
  decide

/-- C5 amended: the request carries fields
`{user_id, message, session_id?, metadata?}` and the response carries
exactly the fields `{response, session_id, action_required,
suggested_actions?, metadata?}` — i.e. the spec's list with
`reply_text` renamed to `response` and the optional `metadata` added.
These are the names the UI layer consumes. -/
theorem chat_wire_field_names :
    userRequestFields =
      [("user_id", true), ("message", true),
       ("session_id", false), ("metadata", false)] ∧
    agentResponseFields.map (·.1) =
      ["response", "session_id", "action_required",
       "suggested_actions", "metadata"] ∧
    (specResponseFields.map fun e =>
        ((if e.1 = "reply_text" then "response" else e.1), e.2)) ++
      [("metadata", false)] = agentResponseFields := by
  decide

/-- C1: for every `(tool_type, operation)` pair in the policy table,
the recorded `requires_confirmation` flag is `true` exactly when the
operation's verb is state-mutating (send, create, update, delete) and
`false` exactly when it is read-only (list, search, get), and the
Action Mapper's output carries exactly that flag on every call —
`mapAction` is a pure function of the table, so the value cannot vary
between calls. -/
theorem policy_confirmation (t : ToolType) (op : String) (b : Bool)
    (h : (t, op, b) ∈ policyTable) :
    (b = true ↔ isMutatingVerb (opVerb op) = true) ∧
    (b = false ↔ isReadOnlyVerb (opVerb op) = true) ∧
    ∀ params, (mapAction t op params).map (·.requires_confirmation) =
      some b := by
  fin_cases h <;> exact ⟨by decide, by decide, fun params => rfl⟩

/-- Witness for `policy_confirmation`: the `(gmail, send_email)` pair
is in the table with flag `true`, and `send` is a mutating verb. -/
theorem policy_confirmation_witness :
    (true = true ↔ isMutatingVerb (opVerb "send_email") = true) ∧
    ∀ params,
      (mapAction .gmail "send_email" params).map
        (·.requires_confirmation) = some true :=
  ⟨(policy_confirmation .gmail "send_email" true (by decide)).1,
   (policy_confirmation .gmail "send_email" true (by decide)).2.2⟩

/-- C8: every error kind of the §7 taxonomy is converted by the
orchestrator boundary into a non-empty user-facing reply
(`orchestratorReply` is total over the taxonomy), and in the UI
client every non-abort error thrown by the chat service is rendered
by appending an error note to the assistant turn — an `AbortError`
leaves the turn untouched, and no outcome escapes the catch. -/
theorem errors_to_user_reply (k : ErrorKind)
    (content name message : String) (h : name ≠ "AbortError") :
    orchestratorReply k ≠ "" ∧
    handleSendCatch content (.err name message) =
      (content ++ "\n[Error: " ++ errText message ++ "]", true) ∧
    handleSendCatch content (.err "AbortError" message) =
      (content, false) := by
  refine ⟨?_, ?_, ?_⟩
  · cases k <;> decide
  · simp [handleSendCatch, h]
  · simp [handleSendCatch]

/-- Witness for `errors_to_user_reply`: a thrown `TypeError` with an
empty message is appended as the fallback error text. -/
theorem errors_to_user_reply_witness :
    orchestratorReply .classification ≠ "" ∧
    handleSendCatch "x" (.err "TypeError" "") =
      ("x" ++ "\n[Error: " ++ errText "" ++ "]", true) ∧
    handleSendCatch "x" (.err "AbortError" "") = ("x", false) :=
  errors_to_user_reply .classification "x" "TypeError" "" (by decide)

/-- No entry keyed `sid` survives `removeKey s sid`. -/
theorem findEntry_removeKey_self (s : Store) (sid : String) :
    findEntry (removeKey s sid) sid = none := by
  have hf : (removeKey s sid).find? (fun e => decide (e.1 = sid)) =
      none := by
    rw [List.find?_eq_none]
    intro x hx
    have hmem := (List.mem_filter.1 hx).2
    simp only [decide_eq_true_eq]
    simpa using hmem
  simp [findEntry, hf]

/-- Lookup skips a head entry with a different key. -/
theorem findEntry_cons_of_neg (a : String × PendingAction) (s : Store)
    (sid : String) (h : ¬ a.1 = sid) :
    findEntry (a :: s) sid = findEntry s sid := by
  rw [findEntry, List.find?_cons_of_neg _ (by simpa using h)]
  rfl

/-- Lookup stops at a head entry with the matching key. -/
theorem findEntry_cons_of_pos (a : String × PendingAction) (s : Store)
    (sid : String) (h : a.1 = sid) :
    findEntry (a :: s) sid = some a.2 := by
  rw [findEntry, List.find?_cons_of_pos _ (by simpa using h)]
  rfl

/-- Removing a different key does not change what `findEntry`
sees. -/
theorem findEntry_removeKey (s : Store) (k sid : String)
    (h : sid ≠ k) : findEntry (removeKey s k) sid = findEntry s sid := by
  induction s with
  | nil => rfl
  | cons a s ih =>
    rw [removeKey, List.filter_cons]
    by_cases ha : a.1 = k
    · have hna : ¬ a.1 = sid := by
        rw [ha]; exact fun e => h e.symm
      rw [if_neg (by simp [ha]), ← removeKey, ih,
        findEntry_cons_of_neg _ _ _ hna]
    · rw [if_pos (by simp [ha])]
      by_cases hs : a.1 = sid
      · rw [findEntry_cons_of_pos _ _ _ hs,
          findEntry_cons_of_pos _ _ _ hs]
      · rw [findEntry_cons_of_neg _ _ _ hs,
          findEntry_cons_of_neg _ _ _ hs, ← removeKey, ih]

/-- What `findEntry` sees after a `put`: the freshly stored entry for
the put key, everything else unchanged. -/
theorem findEntry_put (s : Store) (k : String) (p : PendingAction)
    (n : Nat) (sid : String) :
    findEntry (put s k p n) sid =
      if sid = k then
        some { p with session_id := k,
                      status := .awaiting_confirmation,
                      created_at := n,
                      expires_at := n + pendingTTL }
      else findEntry s sid := by
  by_cases h : sid = k
  · subst h
    rw [if_pos rfl, put, findEntry_cons_of_pos _ _ _ rfl]
  · rw [if_neg h, put,
      findEntry_cons_of_neg _ _ _ (fun e => h e.symm),
      findEntry_removeKey _ _ _ h]

/-- Removal leaves no entry counted for its key. -/
theorem countP_removeKey_self (s : Store) (sid : String) :
    (removeKey s sid).countP (fun e => e.1 = sid) = 0 := by
  rw [List.countP_eq_zero]
  intro a ha
  have hmem := (List.mem_filter.1 ha).2
  simp only [decide_eq_true_eq]
  simpa using hmem

/-- A `put` keeps the per-session entry count at most one. -/
theorem countP_put (s : Store) (k : String) (p : PendingAction)
    (n : Nat) (sid : String)
    (h : s.countP (fun e => e.1 = sid) ≤ 1) :
    (put s k p n).countP (fun e => e.1 = sid) ≤ 1 := by
  rw [put, List.countP_cons]
  by_cases hk : sid = k
  · subst hk
    simp [countP_removeKey_self]
  · have hhead : ¬ ((k : String) = sid) := fun e => hk e.symm
    rw [if_neg (by simpa using hhead)]
    calc (removeKey s k).countP (fun e => decide (e.1 = sid)) + 0
        ≤ s.countP (fun e => decide (e.1 = sid)) := by
          simpa using (List.filter_sublist s).countP_le _
      _ ≤ 1 := h

/-- Any sequence of `put`s keeps the per-session entry count at most
one. -/
theorem countP_applyPuts (ops : List PutOp) :
    ∀ (s : Store) (sid : String),
      s.countP (fun e => e.1 = sid) ≤ 1 →
      (applyPuts s ops).countP (fun e => e.1 = sid) ≤ 1 := by
  induction ops with
  | nil => intro s sid h; exact h
  | cons op ops ih =>
    intro s sid h
    exact ih _ _ (countP_put s op.sid op.pending op.now sid h)

/-- What `findEntry` sees after a sequence of `put`s: the most recent
`put` for the key, or the base store's entry if the sequence never
put that key. -/
theorem findEntry_applyPuts (ops : List PutOp) :
    ∀ (s : Store) (sid : String),
      findEntry (applyPuts s ops) sid =
        match lastPutFor ops sid with
        | some p => some p
        | none => findEntry s sid := by
  induction ops with
  | nil => intro s sid; rfl
  | cons op ops ih =>
    intro s sid
    rw [applyPuts, ih]
    cases hl : lastPutFor ops sid with
    | some p => simp [lastPutFor, hl]
    | none =>
      rw [findEntry_put]
      by_cases h : sid = op.sid
      · subst h
        simp [lastPutFor, hl]
      · have hop : ¬ op.sid = sid := fun e => h e.symm
        simp [lastPutFor, hl, hop, h]

/-- C2: starting from the empty store, after any sequence of `put`
calls at most one entry exists per `session_id`, the entry stored for
a session is exactly what the most recent `put` for that session
stored (a new `put` overwrites an unconfirmed prior one), and `get`
never returns anything but that most recently put entry. -/
theorem pendingStore_most_recent (ops : List PutOp) (sid : String)
    (now : Nat) :
    (applyPuts Store.empty ops).countP (fun e => e.1 = sid) ≤ 1 ∧
    findEntry (applyPuts Store.empty ops) sid = lastPutFor ops sid ∧
    (∀ p, Store.get (applyPuts Store.empty ops) sid now = some p →
      lastPutFor ops sid = some p) := by
  have hfe : findEntry (applyPuts Store.empty ops) sid =
      lastPutFor ops sid := by
    rw [findEntry_applyPuts]
    cases lastPutFor ops sid <;> rfl
  refine ⟨countP_applyPuts ops Store.empty sid (by simp [Store.empty]),
    hfe, ?_⟩
  intro p hp
  rw [Store.get, hfe] at hp
  cases hl : lastPutFor ops sid with
  | none =>
    rw [hl] at hp
    have hp' : (none : Option PendingAction) = some p := hp
    exact absurd hp' (by simp)
  | some q =>
    rw [hl] at hp
    have hp' : (if now > q.expires_at then none
        else some q) = some p := hp
    by_cases hq : now > q.expires_at
    · rw [if_pos hq] at hp'; exact absurd hp' (by simp)
    · rw [if_neg hq] at hp'; rw [hp']

/-- Witness for `pendingStore_most_recent`: two `put`s on session
`"s"` leave one entry, the second one. -/
theorem pendingStore_most_recent_witness :
    (applyPuts Store.empty
        [⟨"s", ⟨"", "", ⟨.sms, "send_sms", [], true⟩,
            .awaiting_confirmation, 0, 0⟩, 0⟩,
         ⟨"s", ⟨"", "", ⟨.gmail, "send_email", [], true⟩,
            .awaiting_confirmation, 0, 0⟩, 5⟩]).countP
      (fun e => e.1 = "s") ≤ 1 ∧
    lastPutFor
        [⟨"s", ⟨"", "", ⟨.sms, "send_sms", [], true⟩,
            .awaiting_confirmation, 0, 0⟩, 0⟩,
         ⟨"s", ⟨"", "", ⟨.gmail, "send_email", [], true⟩,
            .awaiting_confirmation, 0, 0⟩, 5⟩] "s" =
      some ⟨"s", "", ⟨.gmail, "send_email", [], true⟩,
        .awaiting_confirmation, 5, 3605⟩ :=
  ⟨(pendingStore_most_recent _ "s" 6).1,
   (pendingStore_most_recent _ "s" 6).2.2 _ (by decide)⟩

/-- C3: resolution is single-use and removes the entry at once.  For
a store holding an unexpired entry for `sid`, `resolve` succeeds
(whether confirming or cancelling) and returns a store with the entry
gone, so a second `resolve` — under the spec's atomicity contract,
any interleaving of two racing calls behaves as some sequential order
of them — fails with `NotFound`; and two back-to-back
`handle_confirmation(confirmed := true)` calls dispatch the action
exactly once. -/
theorem resolve_single_use (s : Store) (sid : String)
    (p : PendingAction) (now : Nat) (c₁ c₂ : Bool)
    (h : findEntry s sid = some p) (hexp : ¬ now > p.expires_at) :
    resolve s sid c₁ now =
      .ok ({ p with status := if c₁ then .confirmed else .cancelled },
        removeKey s sid) ∧
    findEntry (removeKey s sid) sid = none ∧
    resolve (removeKey s sid) sid c₂ now = .error .notFound ∧
    (handleConfirmation s sid true now).2.2 +
      (handleConfirmation
        (handleConfirmation s sid true now).2.1 sid true now).2.2
      = 1 := by
  have hres : ∀ c : Bool, resolve s sid c now =
      .ok ({ p with status := if c then .confirmed else .cancelled },
        removeKey s sid) := by
    intro c
    simp only [resolve, h]
    rw [if_neg hexp]
  have hrm := findEntry_removeKey_self s sid
  have hres2 : ∀ c : Bool,
      resolve (removeKey s sid) sid c now = .error .notFound := by
    intro c
    simp only [resolve, hrm]
  have hc1 : handleConfirmation s sid true now =
      ("Action executed.", removeKey s sid, 1) := by
    simp [handleConfirmation, hres true]
  have hc2 : handleConfirmation (removeKey s sid) sid true now =
      ("There is nothing pending to confirm.", removeKey s sid, 0) := by
    simp [handleConfirmation, hres2 true]
  refine ⟨hres c₁, hrm, hres2 c₂, ?_⟩
  rw [hc1]
  show 1 + (handleConfirmation (removeKey s sid) sid true now).2.2 = 1
  rw [hc2]
  rfl

/-- Witness for `resolve_single_use`: a store holding one awaiting
entry for `"s"`; the first resolve consumes it, the second finds
nothing, and exactly one dispatch happens. -/
theorem resolve_single_use_witness :
    resolve [("s", ⟨"s", "u", ⟨.gmail, "send_email", [], true⟩,
        .awaiting_confirmation, 0, 3600⟩)] "s" false 10 =
      .ok (⟨"s", "u", ⟨.gmail, "send_email", [], true⟩,
        .cancelled, 0, 3600⟩, []) ∧
    findEntry (removeKey [("s", ⟨"s", "u",
        ⟨.gmail, "send_email", [], true⟩,
        .awaiting_confirmation, 0, 3600⟩)] "s") "s" = none ∧
    resolve (removeKey [("s", ⟨"s", "u",
        ⟨.gmail, "send_email", [], true⟩,
        .awaiting_confirmation, 0, 3600⟩)] "s") "s" true 10 =
      .error .notFound ∧
    (handleConfirmation [("s", ⟨"s", "u",
        ⟨.gmail, "send_email", [], true⟩,
        .awaiting_confirmation, 0, 3600⟩)] "s" true 10).2.2 +
      (handleConfirmation
        (handleConfirmation [("s", ⟨"s", "u",
            ⟨.gmail, "send_email", [], true⟩,
            .awaiting_confirmation, 0, 3600⟩)] "s" true 10).2.1
        "s" true 10).2.2 = 1 := by
  have := resolve_single_use
    [("s", ⟨"s", "u", ⟨.gmail, "send_email", [], true⟩,
        .awaiting_confirmation, 0, 3600⟩)] "s"
    ⟨"s", "u", ⟨.gmail, "send_email", [], true⟩,
        .awaiting_confirmation, 0, 3600⟩ 10 false true
    (by decide) (by decide)
  exact ⟨this.1, this.2.1, this.2.2.1, this.2.2.2⟩

/-- After a sweep of a keyed-out store, `findEntry` still finds
nothing for that key. -/
theorem findEntry_sweep_removeKey (s : Store) (sid : String)
    (t : Nat) : findEntry (sweep (removeKey s sid) t) sid = none := by
  have hf : (sweep (removeKey s sid) t).find?
      (fun e => decide (e.1 = sid)) = none := by
    rw [List.find?_eq_none]
    intro x hx
    have hx1 : x ∈ removeKey s sid := (List.mem_filter.1 hx).1
    have hx2 := (List.mem_filter.1 hx1).2
    simp only [decide_eq_true_eq]
    simpa using hx2
  simp [findEntry, hf]

/-- C4: a pending action stored with the TTL is gone at any time
strictly after its `expires_at`, whether or not a background sweep has
run: `get` returns `none` (as it does on a store that never held the
session), and `resolve` fails — with `Expired` under lazy expiry
alone, with `NotFound` after a sweep has reaped the entry — instead
of transitioning or dispatching the action. -/
theorem pending_expiry (s : Store) (sid : String) (p : PendingAction)
    (now₀ t : Nat) (c : Bool) (ht : now₀ + pendingTTL < t) :
    Store.get (put s sid p now₀) sid t = none ∧
    resolve (put s sid p now₀) sid c t = .error .expired ∧
    Store.get (sweep (put s sid p now₀) t) sid t = none ∧
    resolve (sweep (put s sid p now₀) t) sid c t = .error .notFound ∧
    Store.get Store.empty sid t = none := by
  have hfe : findEntry (put s sid p now₀) sid =
      some { p with session_id := sid,
                    status := .awaiting_confirmation,
                    created_at := now₀,
                    expires_at := now₀ + pendingTTL } := by
    rw [findEntry_put, if_pos rfl]
  have hsw : sweep (put s sid p now₀) t = sweep (removeKey s sid) t := by
    rw [put, sweep, List.filter_cons, if_neg (by simpa using ht)]
    rfl
  have hfe2 := findEntry_sweep_removeKey s sid t
  refine ⟨?_, ?_, ?_, ?_, rfl⟩
  · simp [Store.get, hfe, ht]
  · simp [resolve, hfe, ht]
  · rw [hsw]
    simp [Store.get, hfe2]
  · rw [hsw]
    simp [resolve, hfe2]

/-- Witness for `pending_expiry`: an action put at time 0 with the
one-hour TTL is unreadable and unresolvable at time 3601, sweep or no
sweep. -/
theorem pending_expiry_witness :
    Store.get (put Store.empty "s" ⟨"s", "u",
        ⟨.calendar, "create_event", [], true⟩,
        .awaiting_confirmation, 0, 0⟩ 0) "s" 3601 = none ∧
    resolve (put Store.empty "s" ⟨"s", "u",
        ⟨.calendar, "create_event", [], true⟩,
        .awaiting_confirmation, 0, 0⟩ 0) "s" true 3601 =
      .error .expired ∧
    Store.get (sweep (put Store.empty "s" ⟨"s", "u",
        ⟨.calendar, "create_event", [], true⟩,
        .awaiting_confirmation, 0, 0⟩ 0) 3601) "s" 3601 = none ∧
    resolve (sweep (put Store.empty "s" ⟨"s", "u",
        ⟨.calendar, "create_event", [], true⟩,
        .awaiting_confirmation, 0, 0⟩ 0) 3601) "s" true 3601 =
      .error .notFound ∧
    Store.get Store.empty "s" 3601 = none :=
  pending_expiry Store.empty "s"
    ⟨"s", "u", ⟨.calendar, "create_event", [], true⟩,
      .awaiting_confirmation, 0, 0⟩ 0 3601 true (by decide)

/-- One step of the never-aborted chunk loop. -/
theorem chunkRun_false_cons (w : List Char) (ws : List (List Char))
    (i : Nat) (cur : List Char) :
    chunkRun (fun _ => false) (w :: ws) i cur =
      if i % 4 == 3 || ws.isEmpty then
        (cur ++ (if 0 < i then [' '] else []) ++ w) ::
          chunkRun (fun _ => false) ws (i + 1) []
      else
        chunkRun (fun _ => false) ws (i + 1)
          (cur ++ (if 0 < i then [' '] else []) ++ w) :=
  rfl

/-- Concatenating the chunks the un-aborted loop emits restores the
pending characters: the carried `currentChunk` followed by the
remaining words, each preceded by a space except at index 0. -/
theorem flatten_chunkRun :
    ∀ (ws : List (List Char)) (i : Nat) (cur : List Char), ws ≠ [] →
      (chunkRun (fun _ => false) ws i cur).flatten = cur ++ sepJoin ws i := by
  intro ws
  induction ws with
  | nil => intro i cur h; exact absurd rfl h
  | cons w ws ih =>
    intro i cur _
    rw [chunkRun_false_cons]
    cases ws with
    | nil =>
      rw [if_pos (by simp)]
      simp [chunkRun, sepJoin]
    | cons v vs =>
      by_cases h4 : (i % 4 == 3 || (v :: vs).isEmpty) = true
      · rw [if_pos h4, List.flatten_cons, ih (i + 1) [] (by simp),
          List.nil_append]
        simp only [sepJoin]
        simp [List.append_assoc]
      · rw [if_neg h4, ih (i + 1) _ (by simp)]
        simp only [sepJoin]
        simp [List.append_assoc]

/-- From index 1 on, `sepJoin` prefixes every word with one space. -/
theorem sepJoin_pos :
    ∀ (ws : List (List Char)) (i : Nat), 0 < i →
      sepJoin ws i = (ws.map (' ' :: ·)).flatten := by
  intro ws
  induction ws with
  | nil => intro i _; rfl
  | cons w ws ih =>
    intro i hi
    rw [sepJoin, if_pos hi, List.map_cons, List.flatten_cons,
      ih (i + 1) (by omega)]
    simp

/-- Intercalation with a single-space separator, spelled as the head
word followed by space-prefixed words. -/
theorem intercalate_space :
    ∀ (ws : List (List Char)) (w : List Char),
      [' '].intercalate (w :: ws) = w ++ (ws.map (' ' :: ·)).flatten := by
  intro ws
  induction ws with
  | nil =>
    intro w
    simp [List.intercalate, List.intersperse_singleton]
  | cons v vs ih =>
    intro w
    rw [List.intercalate, List.intersperse_cons_cons,
      List.flatten_cons, List.flatten_cons, ← List.intercalate, ih]
    simp [List.append_assoc]

/-- C9: for a fetch whose abort signal never fires, the concatenation
of all strings passed to `onChunk` by `streamChatResponse`'s chunking
loop equals `data.response` exactly, and the function returns the
server's response unmodified — the reply content is independent of
the chunk boundaries. -/
theorem stream_chunks_exact (resp : List Char) (h : noDoubleSpace resp) :
    (clientStream (fun _ => false) resp).1.flatten = resp ∧
    (clientStream (fun _ => false) resp).2 = resp := by
  refine ⟨?_, rfl⟩
  show (emittedChunks (fun _ => false) resp).flatten = resp
  rw [emittedChunks]
  obtain ⟨w, ws, hws⟩ : ∃ w ws, resp.splitOn ' ' = w :: ws := by
    cases hsp : resp.splitOn ' ' with
    | nil =>
      rw [List.splitOn] at hsp
      exact absurd hsp (List.splitOnP_ne_nil _ resp)
    | cons w ws => exact ⟨w, ws, rfl⟩
  rw [hws, flatten_chunkRun (w :: ws) 0 [] (by simp), List.nil_append,
    sepJoin, if_neg (by simp), List.nil_append,
    sepJoin_pos ws 1 (by simp), ← intercalate_space ws w, ← hws,
    List.intercalate_splitOn]

/-- Witness for `stream_chunks_exact` at the reply
`"Email sent successfully!"`. -/
theorem stream_chunks_exact_witness :
    noDoubleSpace "Email sent successfully!".data ∧
    (clientStream (fun _ => false)
      "Email sent successfully!".data).1.flatten =
      "Email sent successfully!".data :=
  ⟨by decide, (stream_chunks_exact _ (by decide)).1⟩

/-- An aborted chunk loop emits a prefix of what the un-aborted loop
emits: the abort check can only cut the display short. -/
theorem chunkRun_prefix (abort : Nat → Bool) :
    ∀ (ws : List (List Char)) (i : Nat) (cur : List Char),
      chunkRun abort ws i cur <+: chunkRun (fun _ => false) ws i cur := by
  intro ws
  induction ws with
  | nil => intro i cur; exact List.prefix_refl _
  | cons w ws ih =>
    intro i cur
    rw [chunkRun_false_cons, chunkRun]
    by_cases ha : abort i
    · rw [if_pos ha]
      exact List.nil_prefix
    · rw [if_neg ha]
      by_cases hb : (i % 4 == 3 || ws.isEmpty) = true
      · rw [if_pos hb, if_pos hb]
        exact List.cons_prefix_cons.2 ⟨rfl, ih (i + 1) []⟩
      · rw [if_neg hb, if_neg hb]
        exact ih (i + 1) _

/-- C7: a user-initiated stop never cancels a dispatched action.  In
any chat execution, whatever the abort schedule does once the request
has been issued, the server-side effect and the value the client call
returns are identical to the un-aborted execution's, and the chunks
displayed are a prefix of the full reply — aborting only halts the
display. -/
theorem abort_only_stops_display {E R : Type}
    (server : R → E × List Char) (req : R) (abort : Nat → Bool) :
    (chatExecution server req abort).1 =
      (chatExecution server req (fun _ => false)).1 ∧
    (chatExecution server req abort).2.2 =
      (chatExecution server req (fun _ => false)).2.2 ∧
    (chatExecution server req abort).2.1 <+:
      (chatExecution server req (fun _ => false)).2.1 := by
  cases hsr : server req with
  | mk e resp =>
    refine ⟨?_, ?_, ?_⟩
    · simp [chatExecution, hsr]
    · simp [chatExecution, hsr, clientStream]
    · simp only [chatExecution, hsr, clientStream, emittedChunks]
      exact chunkRun_prefix abort _ 0 []
